import Mathlib

/-!
Verification of the watch-handler subsystem of `Stanza-WatchDog-v2.py`
(repository `stanza-automation`): the stability-detection loop
`wait_for_stable_file`, the dispatcher `run_script`, the deduplication
registry manipulated by `on_created` and the per-handler semaphore set up
in `RobustFolderWatchHandler.__init__` / `start_folder_watch`.

Modelling conventions:
* Wall-clock readings of `time.time()` and `os.path.getctime` are modelled
  as integers (seconds).  Every branch of the source compares a difference
  of two readings against the integer constants `MIN_FILE_AGE` and
  `MAX_WAIT_TIME`, so integer-valued instants realise every reachable
  branch combination.
* `os.path.getsize` returns the size of an existing file, a natural
  number; the sentinel `last_size = -1` therefore lives in `ℤ`.
* One iteration of the polling loop reads the clock once at the age gate
  (`t1`), then either sleeps (file too new) or polls the size
  (`Obs.size n`, or `Obs.err` when `os.path.getsize` raises `OSError`)
  and reads the clock again at the timeout check (`t2`).  A run of the
  loop is a function of the observation sequence.
* The adaptive poll interval (`wait_interval`) is an exact rational; the
  source multiplies by the float literal `1.5`.
* Exceptions are modelled by `Except` / explicit error constructors;
  lock-protected critical sections of the source are single atomic steps
  of the transition systems below.
-/

namespace StanzaWatchDog

/-- `STABILITY_THRESHOLD = 10`, line 10 of the source: number of
consecutive stable checks, also reused (as seconds) as the cap of the
adaptive poll interval on line 54. -/
def STABILITY_THRESHOLD : ℕ := 10

/-- `MAX_WAIT_TIME = 600`, line 11 of the source (seconds). -/
def MAX_WAIT_TIME : ℤ := 600

/-- `INITIAL_CHECK_INTERVAL = 1`, line 12 of the source (seconds). -/
def INITIAL_CHECK_INTERVAL : ℚ := 1

/-- `MAX_CONCURRENT_PROCESSES = 5`, line 13 of the source. -/
def MAX_CONCURRENT_PROCESSES : ℕ := 5

/-- `MIN_FILE_AGE = 5`, line 14 of the source (seconds). -/
def MIN_FILE_AGE : ℤ := 5

/-- Outcome of one `os.path.getsize` call inside the polling loop
(line 51): a size, or an `OSError` (line 59). -/
inductive Obs : Type where
  | size (n : ℕ)
  | err
  deriving DecidableEq

/-- The observable inputs consumed by one iteration of the `while` loop of
`wait_for_stable_file` (lines 42-67): the clock reading `t1` at the age
gate (line 45), the size observation (lines 51-61), and the clock reading
`t2` at the timeout check (line 63).  When the age gate fires (`continue`
on line 49) the iteration uses only `t1`. -/
structure Iter where
  t1 : ℤ
  obs : Obs
  t2 : ℤ
  deriving DecidableEq

/-- State update of lines 51-61 of the source: on a size equal to
`last_size`, increment the streak and grow the interval by 1.5 capped at
`STABILITY_THRESHOLD` seconds (lines 52-54); on a different size, reset
the streak to 0 and the interval to `INITIAL_CHECK_INTERVAL`
(lines 55-57); on `OSError`, reset only the streak (lines 59-61), keeping
both `wait_interval` and `last_size`. -/
def stepUpdate (w : ℚ) (last : ℤ) (cnt : ℕ) : Obs → ℚ × ℤ × ℕ
  | .size n =>
      if (n : ℤ) = last then
        (min (w * (3 / 2)) (STABILITY_THRESHOLD : ℚ), (n : ℤ), cnt + 1)
      else
        (INITIAL_CHECK_INTERVAL, (n : ℤ), 0)
  | .err => (w, last, 0)

/-- The `while unchanged_count < STABILITY_THRESHOLD` loop of
`wait_for_stable_file` (lines 42-69), as a function of the observation
sequence.  `fct` is `file_creation_time` (line 40), `start` is
`start_time` (line 39).  Returns `some true` (stable, line 69),
`some false` (timeout, line 65), or `none` when the observation sequence
ends before the loop decides.  Note that an iteration whose age gate
fires (line 45) executes `continue` on line 49 and therefore never
reaches the timeout check of line 63. -/
def waitRun (fct start : ℤ) : ℚ → ℤ → ℕ → List Iter → Option Bool
  | _, _, cnt, [] => if STABILITY_THRESHOLD ≤ cnt then some true else none
  | w, last, cnt, it :: rest =>
    if STABILITY_THRESHOLD ≤ cnt then some true
    else if it.t1 - fct < MIN_FILE_AGE then
      waitRun fct start w last 0 rest
    else
      let s := stepUpdate w last cnt it.obs
      if MAX_WAIT_TIME < it.t2 - start then some false
      else waitRun fct start s.1 s.2.1 s.2.2 rest

/-- `wait_for_stable_file` entry: initial state of lines 36-38,
`last_size = -1`, `unchanged_count = 0`,
`wait_interval = INITIAL_CHECK_INTERVAL`. -/
def wait_for_stable_file (fct start : ℤ) (tr : List Iter) : Option Bool :=
  waitRun fct start INITIAL_CHECK_INTERVAL (-1) 0 tr

/-- An iteration that performs a successful size read: its age gate passes
and `os.path.getsize` does not raise. -/
def readPoll (fct : ℤ) (it : Iter) : Bool :=
  decide (MIN_FILE_AGE ≤ it.t1 - fct) &&
    (match it.obs with
     | .size _ => true
     | .err => false)

/-- Behaviour of the `subprocess.run` call of lines 80-87: the command
completes with an exit code and captured streams, exceeds the 3600s
timeout (`subprocess.TimeoutExpired`, line 95), or the invocation raises
some other exception, e.g. command not found (line 97). -/
inductive SubprocessResult : Type where
  | completed (returncode : ℕ) (stdout stderr : String)
  | timedOut
  | raisedOther (msg : String)
  deriving DecidableEq

/-- The spec's `DispatchOutcome`: the classification `run_script` performs
through its `try/except` arms (lines 89-98). -/
inductive DispatchOutcome : Type where
  | success (stdout : String)
  | nonZeroExit (returncode : ℕ) (stderr : String)
  | timedOut
  | unexpectedFailure (msg : String)
  deriving DecidableEq

/-- Classification performed by `run_script` (lines 80-98): with
`check=True`, a non-zero exit raises `subprocess.CalledProcessError`,
caught on line 93 with the captured stderr; exit code 0 is logged as
completion (line 89); `subprocess.TimeoutExpired` is caught separately
(line 95); any other exception is caught on line 97. -/
def classifyDispatch : SubprocessResult → DispatchOutcome
  | .completed 0 out _ => .success out
  | .completed (k + 1) _ err => .nonZeroExit (k + 1) err
  | .timedOut => .timedOut
  | .raisedOther m => .unexpectedFailure m

/-- `run_script` (lines 71-101) acting on the deduplication registry
`processing_files`: whatever the subprocess does, the `finally` block of
lines 99-101 discards the path. -/
def run_script (reg : Finset String) (p : String) (r : SubprocessResult) :
    DispatchOutcome × Finset String :=
  (classifyDispatch r, reg.erase p)

/-- A filesystem creation event as consumed by `on_created` (line 103):
watchdog's `event.src_path` and `event.is_directory`. -/
structure Event where
  src_path : String
  is_directory : Bool
  deriving DecidableEq

/-- The lock-protected check-and-insert of `on_created` (lines 103-114):
directory events are ignored (line 104); a path already in
`processing_files` is skipped (lines 111-113); otherwise it is inserted
and a unit of work is spawned (lines 114, 124).  The boolean records
whether a unit of work was spawned. -/
def on_created (reg : Finset String) (e : Event) : Bool × Finset String :=
  if e.is_directory then (false, reg)
  else if e.src_path ∈ reg then (false, reg)
  else (true, insert e.src_path reg)

/-- The body of the per-file unit of work `process` (lines 116-122), as a
function of the registry, the result of the stability phase and the
subprocess behaviour.  The stability phase is `Except.error msg` when an
exception escapes `wait_for_stable_file` — `os.path.getctime` on line 40
runs before the `try` of line 43 and raises `OSError` if the file has
already vanished; `process` itself has no `try/finally`, so in that case
the thread dies with no registry cleanup. -/
def process (reg : Finset String) (p : String) (stab : Except String Bool)
    (r : SubprocessResult) : Finset String :=
  match stab with
  | .ok true => (run_script reg p r).2
  | .ok false => reg.erase p
  | .error _ => reg

/-- Deduplication-registry view of one handler: the `processing_files`
set together with, for each path, the number of units of work currently
executing for it. -/
structure DedupState where
  reg : Finset String
  inflight : String → ℕ

/-- Initial registry state: `self.processing_files = set()` (line 30), no
unit of work running. -/
def initDedup : DedupState := ⟨∅, fun _ => 0⟩

/-- Atomic transitions of one handler's registry.  `accept` is the
lock-protected check-and-insert of `on_created` (lines 110-114) together
with the thread spawn of line 124 (only taken when the path is absent; a
duplicate event changes nothing).  `finish` is a unit of work reaching a
cleanup point that discards the path (line 101 or line 122).  `crash` is
a unit of work dying without cleanup (an exception escaping
`wait_for_stable_file`, see `process`). -/
inductive DedupStep : DedupState → DedupState → Prop where
  | accept (s : DedupState) (e : Event) (hdir : e.is_directory = false)
      (habs : e.src_path ∉ s.reg) :
      DedupStep s
        ⟨insert e.src_path s.reg,
         Function.update s.inflight e.src_path (s.inflight e.src_path + 1)⟩
  | finish (s : DedupState) (p : String) (hpos : 0 < s.inflight p) :
      DedupStep s
        ⟨s.reg.erase p, Function.update s.inflight p (s.inflight p - 1)⟩
  | crash (s : DedupState) (p : String) (hpos : 0 < s.inflight p) :
      DedupStep s ⟨s.reg, Function.update s.inflight p (s.inflight p - 1)⟩

/-- Registry states reachable from the handler's initial state. -/
def DedupReachable (s : DedupState) : Prop :=
  Relation.ReflTransGen DedupStep initDedup s

/-- Invariant of the deduplication registry: at most one unit of work per
path, and a path with a running unit of work is in `processing_files`. -/
def DedupInv (s : DedupState) : Prop :=
  ∀ p, s.inflight p ≤ 1 ∧ (0 < s.inflight p → p ∈ s.reg)

/-- Semaphore state of the handlers created by `start_folder_watch`
(lines 126-134): each configured folder gets its own
`RobustFolderWatchHandler`, whose `__init__` (line 32) creates a private
`Semaphore(MAX_CONCURRENT_PROCESSES)`.  `H` indexes the handlers;
`avail h` is the free-slot count of handler `h`'s semaphore and
`active h` the number of its units of work currently inside the
`with self.semaphore` block of `run_script` (line 74). -/
structure SemState (H : Type) where
  avail : H → ℕ
  active : H → ℕ

/-- Initial semaphore state: every handler's semaphore starts with
`MAX_CONCURRENT_PROCESSES` slots and no dispatch running. -/
def initSem (H : Type) : SemState H := ⟨fun _ => MAX_CONCURRENT_PROCESSES, fun _ => 0⟩

/-- Semaphore transitions: a unit of work of handler `h` enters the
`with self.semaphore` block when a slot of that handler's own semaphore
is free, and leaves it releasing the slot. -/
inductive SemStep {H : Type} [DecidableEq H] : SemState H → SemState H → Prop where
  | acquire (s : SemState H) (h : H) (hpos : 0 < s.avail h) :
      SemStep s
        ⟨Function.update s.avail h (s.avail h - 1),
         Function.update s.active h (s.active h + 1)⟩
  | release (s : SemState H) (h : H) (hpos : 0 < s.active h) :
      SemStep s
        ⟨Function.update s.avail h (s.avail h + 1),
         Function.update s.active h (s.active h - 1)⟩

/-- Semaphore states reachable from start-up. -/
def SemReachable {H : Type} [DecidableEq H] (s : SemState H) : Prop :=
  Relation.ReflTransGen SemStep (initSem H) s

/-- Per-handler semaphore invariant: free slots plus running dispatches
equal the capacity. -/
def SemInv {H : Type} (s : SemState H) : Prop :=
  ∀ h, s.avail h + s.active h = MAX_CONCURRENT_PROCESSES

/-- Two configured folders (`true` and `false`), five dispatches of the
first handler running. -/
def burst0 : SemState Bool := initSem Bool

def burst1 : SemState Bool :=
  ⟨Function.update burst0.avail true (burst0.avail true - 1),
   Function.update burst0.active true (burst0.active true + 1)⟩

def burst2 : SemState Bool :=
  ⟨Function.update burst1.avail true (burst1.avail true - 1),
   Function.update burst1.active true (burst1.active true + 1)⟩

def burst3 : SemState Bool :=
  ⟨Function.update burst2.avail true (burst2.avail true - 1),
   Function.update burst2.active true (burst2.active true + 1)⟩

def burst4 : SemState Bool :=
  ⟨Function.update burst3.avail true (burst3.avail true - 1),
   Function.update burst3.active true (burst3.active true + 1)⟩

def burst5 : SemState Bool :=
  ⟨Function.update burst4.avail true (burst4.avail true - 1),
   Function.update burst4.active true (burst4.active true + 1)⟩

/-- A sixth simultaneous dispatch, admitted by the second handler's own
semaphore. -/
def burst6 : SemState Bool :=
  ⟨Function.update burst5.avail false (burst5.avail false - 1),
   Function.update burst5.active false (burst5.active false + 1)⟩

lemma waitRun_nil (fct start : ℤ) (w : ℚ) (last : ℤ) (cnt : ℕ) :
    waitRun fct start w last cnt [] =
      if STABILITY_THRESHOLD ≤ cnt then some true else none := rfl

lemma waitRun_cons (fct start : ℤ) (w : ℚ) (last : ℤ) (cnt : ℕ) (it : Iter)
    (rest : List Iter) :
    waitRun fct start w last cnt (it :: rest) =
      if STABILITY_THRESHOLD ≤ cnt then some true
      else if it.t1 - fct < MIN_FILE_AGE then
        waitRun fct start w last 0 rest
      else
        if MAX_WAIT_TIME < it.t2 - start then some false
        else
          waitRun fct start (stepUpdate w last cnt it.obs).1
            (stepUpdate w last cnt it.obs).2.1 (stepUpdate w last cnt it.obs).2.2
            rest := rfl

lemma waitRun_done (fct start : ℤ) (w : ℚ) (last : ℤ) (cnt : ℕ)
    (tr : List Iter) (h : STABILITY_THRESHOLD ≤ cnt) :
    waitRun fct start w last cnt tr = some true := by
  cases tr with
  | nil => rw [waitRun_nil, if_pos h]
  | cons it rest => rw [waitRun_cons, if_pos h]

lemma waitRun_young (fct start : ℤ) (w : ℚ) (last : ℤ) (cnt : ℕ) (it : Iter)
    (rest : List Iter) (hcnt : cnt < STABILITY_THRESHOLD)
    (hy : it.t1 - fct < MIN_FILE_AGE) :
    waitRun fct start w last cnt (it :: rest) =
      waitRun fct start w last 0 rest := by
  rw [waitRun_cons, if_neg (Nat.not_le.mpr hcnt), if_pos hy]

lemma waitRun_late (fct start : ℤ) (w : ℚ) (last : ℤ) (cnt : ℕ) (it : Iter)
    (rest : List Iter) (hcnt : cnt < STABILITY_THRESHOLD)
    (hage : MIN_FILE_AGE ≤ it.t1 - fct)
    (hlate : MAX_WAIT_TIME < it.t2 - start) :
    waitRun fct start w last cnt (it :: rest) = some false := by
  rw [waitRun_cons, if_neg (Nat.not_le.mpr hcnt), if_neg (not_lt.mpr hage),
    if_pos hlate]

lemma waitRun_step (fct start : ℤ) (w : ℚ) (last : ℤ) (cnt : ℕ) (it : Iter)
    (rest : List Iter) (hcnt : cnt < STABILITY_THRESHOLD)
    (hage : MIN_FILE_AGE ≤ it.t1 - fct)
    (hin : it.t2 - start ≤ MAX_WAIT_TIME) :
    waitRun fct start w last cnt (it :: rest) =
      waitRun fct start (stepUpdate w last cnt it.obs).1
        (stepUpdate w last cnt it.obs).2.1 (stepUpdate w last cnt it.obs).2.2
        rest := by
  rw [waitRun_cons, if_neg (Nat.not_le.mpr hcnt), if_neg (not_lt.mpr hage),
    if_neg (not_lt.mpr hin)]

lemma stepUpdate_size_self (w : ℚ) (n : ℕ) (cnt : ℕ) :
    stepUpdate w (n : ℤ) cnt (Obs.size n) =
      (min (w * (3 / 2)) (STABILITY_THRESHOLD : ℚ), (n : ℤ), cnt + 1) := by
  simp [stepUpdate]

lemma waitRun_all_young_none (fct start : ℤ) (w : ℚ) (last : ℤ)
    (tr : List Iter) :
    ∀ cnt : ℕ, cnt < STABILITY_THRESHOLD →
      (∀ it ∈ tr, it.t1 - fct < MIN_FILE_AGE) →
      waitRun fct start w last cnt tr = none := by
  induction tr with
  | nil =>
    intro cnt hcnt _
    rw [waitRun_nil, if_neg (Nat.not_le.mpr hcnt)]
  | cons it tr ih =>
    intro cnt hcnt hyoung
    rw [waitRun_young fct start w last cnt it tr hcnt
      (hyoung it (List.mem_cons_self it tr))]
    exact ih 0 (by decide) (fun it2 h2 => hyoung it2 (List.mem_cons_of_mem it h2))

lemma waitRun_stable_of_good (fct start : ℤ) (s : ℕ) (tr : List Iter) :
    ∀ (w : ℚ) (cnt : ℕ), cnt ≤ STABILITY_THRESHOLD →
      tr.length = STABILITY_THRESHOLD - cnt →
      (∀ it ∈ tr, MIN_FILE_AGE ≤ it.t1 - fct ∧ it.obs = Obs.size s ∧
        it.t2 - start ≤ MAX_WAIT_TIME) →
      ∀ rest : List Iter,
        waitRun fct start w (s : ℤ) cnt (tr ++ rest) = some true := by
  induction tr with
  | nil =>
    intro w cnt hcnt hlen _ rest
    have hc : STABILITY_THRESHOLD ≤ cnt := by
      simp only [List.length_nil] at hlen
      omega
    exact waitRun_done fct start w (s : ℤ) cnt _ hc
  | cons it tr ih =>
    intro w cnt hcnt hlen hgood rest
    have hcnt' : cnt < STABILITY_THRESHOLD := by
      simp only [List.length_cons] at hlen
      omega
    obtain ⟨hage, hobs, hin⟩ := hgood it (List.mem_cons_self it tr)
    rw [List.cons_append,
      waitRun_step fct start w (s : ℤ) cnt it (tr ++ rest) hcnt' hage hin, hobs,
      stepUpdate_size_self]
    exact ih (min (w * (3 / 2)) (STABILITY_THRESHOLD : ℚ)) (cnt + 1) hcnt'
      (by simp only [List.length_cons] at hlen; omega)
      (fun it2 h2 => hgood it2 (List.mem_cons_of_mem it h2)) rest

lemma countP_reads_lb (fct start : ℤ) (tr : List Iter) :
    ∀ (w : ℚ) (last : ℤ) (cnt : ℕ), cnt < STABILITY_THRESHOLD →
      waitRun fct start w last cnt tr = some true →
      (STABILITY_THRESHOLD - cnt) + (if last < 0 then 1 else 0) ≤
        tr.countP (readPoll fct) := by
  induction tr with
  | nil =>
    intro w last cnt hcnt h
    rw [waitRun_nil, if_neg (Nat.not_le.mpr hcnt)] at h
    exact absurd h (by simp)
  | cons it rest ih =>
    intro w last cnt hcnt h
    by_cases hy : it.t1 - fct < MIN_FILE_AGE
    · rw [waitRun_young fct start w last cnt it rest hcnt hy] at h
      have hrec := ih w last 0 (by decide) h
      have hrp : readPoll fct it = false := by
        simp [readPoll, not_le.mpr hy]
      have hcp : (it :: rest).countP (readPoll fct) = rest.countP (readPoll fct) := by
        simp [List.countP_cons, hrp]
      rw [hcp]
      omega
    · have hage : MIN_FILE_AGE ≤ it.t1 - fct := not_lt.mp hy
      by_cases hl : MAX_WAIT_TIME < it.t2 - start
      · rw [waitRun_late fct start w last cnt it rest hcnt hage hl] at h
        exact absurd h (by simp)
      · rw [waitRun_step fct start w last cnt it rest hcnt hage (not_lt.mp hl)] at h
        cases hobs : it.obs with
        | err =>
          rw [hobs] at h
          simp only [stepUpdate] at h
          have hrec := ih w last 0 (by decide) h
          have hrp : readPoll fct it = false := by
            simp [readPoll, hobs]
          have hcp : (it :: rest).countP (readPoll fct) = rest.countP (readPoll fct) := by
            simp [List.countP_cons, hrp]
          rw [hcp]
          omega
        | size n =>
          rw [hobs] at h
          have hrp : readPoll fct it = true := by
            simp [readPoll, hobs, hage]
          have hcp : (it :: rest).countP (readPoll fct) =
              rest.countP (readPoll fct) + 1 := by
            simp [List.countP_cons, hrp]
          rw [hcp]
          have hn2 : ¬ ((n : ℤ) < 0) := not_lt.mpr (Int.natCast_nonneg n)
          by_cases heq : (n : ℤ) = last
          · simp only [stepUpdate, if_pos heq] at h
            have hnn : ¬ (last < 0) := heq ▸ hn2
            rw [if_neg hnn]
            by_cases h10 : cnt + 1 < STABILITY_THRESHOLD
            · have hrec := ih (min (w * (3 / 2)) (STABILITY_THRESHOLD : ℚ)) (n : ℤ)
                (cnt + 1) h10 h
              rw [if_neg hn2] at hrec
              omega
            · omega
          · simp only [stepUpdate, if_neg heq] at h
            have hrec := ih INITIAL_CHECK_INTERVAL (n : ℤ) 0 (by decide) h
            rw [if_neg hn2] at hrec
            by_cases hlast : last < 0
            · rw [if_pos hlast]
              omega
            · rw [if_neg hlast]
              omega

lemma dedupInv_init : DedupInv initDedup := by
  intro p
  constructor
  · exact Nat.zero_le 1
  · intro h
    exact absurd h (by simp [initDedup])

lemma dedupInv_step {s t : DedupState} (hinv : DedupInv s)
    (hstep : DedupStep s t) : DedupInv t := by
  cases hstep with
  | accept e hdir habs =>
    intro p
    dsimp only
    rcases eq_or_ne p e.src_path with hp | hp
    · have h0 : s.inflight e.src_path = 0 := by
        by_contra hne
        exact habs ((hinv e.src_path).2 (Nat.pos_of_ne_zero hne))
      constructor
      · rw [hp, Function.update_same, h0]
      · intro _
        rw [hp]
        exact Finset.mem_insert_self e.src_path s.reg
    · constructor
      · rw [Function.update_noteq hp]
        exact (hinv p).1
      · intro hpos
        rw [Function.update_noteq hp] at hpos
        exact Finset.mem_insert_of_mem ((hinv p).2 hpos)
  | finish q hpos =>
    intro p
    dsimp only
    rcases eq_or_ne p q with hp | hp
    · constructor
      · rw [hp, Function.update_same]
        have := (hinv q).1
        omega
      · rw [hp, Function.update_same]
        intro hpos'
        have h1 := (hinv q).1
        exact absurd hpos' (by omega)
    · constructor
      · rw [Function.update_noteq hp]
        exact (hinv p).1
      · rw [Function.update_noteq hp]
        intro hpos'
        exact Finset.mem_erase.mpr ⟨hp, (hinv p).2 hpos'⟩
  | crash q hpos =>
    intro p
    dsimp only
    rcases eq_or_ne p q with hp | hp
    · constructor
      · rw [hp, Function.update_same]
        have := (hinv q).1
        omega
      · rw [hp, Function.update_same]
        intro hpos'
        have h1 := (hinv q).1
        exact absurd hpos' (by omega)
    · constructor
      · rw [Function.update_noteq hp]
        exact (hinv p).1
      · rw [Function.update_noteq hp]
        exact fun hpos' => (hinv p).2 hpos'

lemma dedupInv_of_steps {s t : DedupState} (hi : DedupInv s)
    (h : Relation.ReflTransGen DedupStep s t) : DedupInv t := by
  induction h with
  | refl => exact hi
  | tail _ hstep ih => exact dedupInv_step ih hstep

lemma semInv_init (H : Type) : SemInv (initSem H) := fun _ => rfl

lemma semInv_step {H : Type} [DecidableEq H] {s t : SemState H}
    (hinv : SemInv s) (hstep : SemStep s t) : SemInv t := by
  cases hstep with
  | acquire q hpos =>
    intro x
    dsimp only
    rcases eq_or_ne x q with hx | hx
    · rw [hx, Function.update_same, Function.update_same]
      have := hinv q
      omega
    · rw [Function.update_noteq hx, Function.update_noteq hx]
      exact hinv x
  | release q hpos =>
    intro x
    dsimp only
    rcases eq_or_ne x q with hx | hx
    · rw [hx, Function.update_same, Function.update_same]
      have := hinv q
      omega
    · rw [Function.update_noteq hx, Function.update_noteq hx]
      exact hinv x

lemma semInv_of_steps {H : Type} [DecidableEq H] {s t : SemState H}
    (hi : SemInv s) (h : Relation.ReflTransGen SemStep s t) : SemInv t := by
  induction h with
  | refl => exact hi
  | tail _ hstep ih => exact semInv_step ih hstep

/-- C1: refuted by the code — demonstration of the deduplication leak.
Every normal stability verdict releases the path (first conjunct), but
when the stability phase raises (`os.path.getctime` on line 40 runs
before the `try` and raises `OSError` if the file has already vanished),
`process` performs no cleanup: the path stays in `processing_files` and
every later creation event for it is skipped, so the file becomes
unprocessable forever. -/
theorem c1_process_leak :
    (∀ (reg : Finset String) (p : String) (r : SubprocessResult) (b : Bool),
        process reg p (Except.ok b) r = reg.erase p)
    ∧ process (insert "f.mxf" (∅ : Finset String)) "f.mxf"
        (Except.error "OSError") SubprocessResult.timedOut
      = insert "f.mxf" (∅ : Finset String)
    ∧ "f.mxf" ∈ process (insert "f.mxf" (∅ : Finset String)) "f.mxf"
        (Except.error "OSError") SubprocessResult.timedOut
    ∧ (on_created
        (process (insert "f.mxf" (∅ : Finset String)) "f.mxf"
          (Except.error "OSError") SubprocessResult.timedOut)
        ⟨"f.mxf", false⟩).1 = false := by
  refine ⟨fun reg p r b => ?_, rfl, by decide, by decide⟩
  cases b <;> rfl

/-- C2 (amended): the concurrency cap is per handler, not global.  In
every reachable semaphore state, at most `MAX_CONCURRENT_PROCESSES`
dispatches of any single handler execute simultaneously. -/
theorem c2_per_handler_cap {H : Type} [DecidableEq H] (s : SemState H)
    (hs : SemReachable s) (h : H) :
    s.active h ≤ MAX_CONCURRENT_PROCESSES := by
  have hinv := semInv_of_steps (semInv_init H) hs
  have := hinv h
  omega

theorem c2_per_handler_cap_witness :
    (initSem Bool).active true ≤ MAX_CONCURRENT_PROCESSES :=
  c2_per_handler_cap (initSem Bool) Relation.ReflTransGen.refl true

/-- C2: the claim's global cap is false on the code.  With two configured
folders, each handler owns its own `Semaphore(MAX_CONCURRENT_PROCESSES)`
(line 32), and a state with six simultaneous dispatches — five of one
handler plus one of the other — is reachable from start-up. -/
theorem c2_global_cap_counterexample :
    SemReachable burst6
    ∧ MAX_CONCURRENT_PROCESSES < burst6.active true + burst6.active false := by
  constructor
  · exact Relation.ReflTransGen.head (SemStep.acquire burst0 true (by decide))
      (Relation.ReflTransGen.head (SemStep.acquire burst1 true (by decide))
        (Relation.ReflTransGen.head (SemStep.acquire burst2 true (by decide))
          (Relation.ReflTransGen.head (SemStep.acquire burst3 true (by decide))
            (Relation.ReflTransGen.head (SemStep.acquire burst4 true (by decide))
              (Relation.ReflTransGen.head (SemStep.acquire burst5 false (by decide))
                Relation.ReflTransGen.refl)))))
  · decide

/-- C3: at most one in-flight unit of work exists per path: every
reachable registry state has `inflight p ≤ 1`, and of two creation
events for the same path arriving before the first unit of work finishes,
the first spawns a unit of work and the second is skipped, the registry
unchanged. -/
theorem c3_single_inflight :
    (∀ s, DedupReachable s → ∀ p, s.inflight p ≤ 1)
    ∧ (∀ (reg : Finset String) (p : String), p ∉ reg →
        on_created reg ⟨p, false⟩ = (true, insert p reg)
        ∧ on_created (insert p reg) ⟨p, false⟩ = (false, insert p reg)) := by
  constructor
  · intro s hs p
    exact ((dedupInv_of_steps dedupInv_init hs) p).1
  · intro reg p hp
    constructor
    · simp [on_created, hp]
    · simp [on_created]

theorem c3_single_inflight_witness :
    initDedup.inflight "f.mxf" ≤ 1
    ∧ (on_created (∅ : Finset String) ⟨"f.mxf", false⟩
        = (true, insert "f.mxf" (∅ : Finset String))
      ∧ on_created (insert "f.mxf" (∅ : Finset String)) ⟨"f.mxf", false⟩
        = (false, insert "f.mxf" (∅ : Finset String))) :=
  ⟨c3_single_inflight.1 initDedup Relation.ReflTransGen.refl "f.mxf",
   c3_single_inflight.2 (∅ : Finset String) "f.mxf" (by decide)⟩

/-- C4: the claim as stated is false on the code.  At a poll taken while
the file is still younger than `MIN_FILE_AGE` (possible with elapsed time
beyond `MAX_WAIT_TIME` when the recorded creation time lies after the
detection start, e.g. clock skew on a network share), the `continue` of
line 49 skips the timeout check of line 63: with `file_creation_time =
1000` and `start_time = 0`, the poll at time 700 has elapsed 700 > 600
yet the detector neither stops nor reports timeout. -/
theorem c4_timeout_counterexample :
    MAX_WAIT_TIME < (700 : ℤ) - 0
    ∧ (700 : ℤ) - 1000 < MIN_FILE_AGE
    ∧ wait_for_stable_file 1000 0 [⟨700, Obs.err, 700⟩] = none := by
  refine ⟨by decide, by decide, rfl⟩

/-- C4 (amended): on every iteration that passes the `MIN_FILE_AGE`
gate, elapsed time beyond `MAX_WAIT_TIME` makes the detector stop and
report timeout at once, regardless of streak progress; iterations taken
while the file is younger than `MIN_FILE_AGE` skip the check, so the
detector is guaranteed a verdict by the first poll after
`start + MAX_WAIT_TIME` only when the recorded creation time does not
exceed the detection start time. -/
theorem c4_timeout_amended :
    (∀ (fct start : ℤ) (w : ℚ) (last : ℤ) (cnt : ℕ) (it : Iter)
        (rest : List Iter),
        cnt < STABILITY_THRESHOLD → MIN_FILE_AGE ≤ it.t1 - fct →
        MAX_WAIT_TIME < it.t2 - start →
        waitRun fct start w last cnt (it :: rest) = some false)
    ∧ (∀ (fct start : ℤ) (w : ℚ) (last : ℤ) (cnt : ℕ) (pre : List Iter)
        (it : Iter),
        fct ≤ start → start + MAX_WAIT_TIME < it.t1 → it.t1 ≤ it.t2 →
        waitRun fct start w last cnt (pre ++ [it]) ≠ none) := by
  constructor
  · intro fct start w last cnt it rest hcnt hage hlate
    exact waitRun_late fct start w last cnt it rest hcnt hage hlate
  · intro fct start w last cnt pre it hfs hlt h12
    induction pre generalizing w last cnt with
    | nil =>
      by_cases hc : STABILITY_THRESHOLD ≤ cnt
      · rw [List.nil_append, waitRun_done fct start w last cnt _ hc]
        simp
      · have h5 : MIN_FILE_AGE = (5 : ℤ) := rfl
        have h6 : MAX_WAIT_TIME = (600 : ℤ) := rfl
        have hage : MIN_FILE_AGE ≤ it.t1 - fct := by omega
        have hl2 : MAX_WAIT_TIME < it.t2 - start := by omega
        rw [List.nil_append,
          waitRun_late fct start w last cnt it [] (Nat.not_le.mp hc) hage hl2]
        simp
    | cons it2 pre ih =>
      by_cases hc : STABILITY_THRESHOLD ≤ cnt
      · rw [List.cons_append, waitRun_done fct start w last cnt _ hc]
        simp
      · have hc' := Nat.not_le.mp hc
        by_cases hy : it2.t1 - fct < MIN_FILE_AGE
        · rw [List.cons_append,
            waitRun_young fct start w last cnt it2 (pre ++ [it]) hc' hy]
          exact ih w last 0
        · by_cases hl : MAX_WAIT_TIME < it2.t2 - start
          · rw [List.cons_append,
              waitRun_late fct start w last cnt it2 (pre ++ [it]) hc'
                (not_lt.mp hy) hl]
            simp
          · rw [List.cons_append,
              waitRun_step fct start w last cnt it2 (pre ++ [it]) hc'
                (not_lt.mp hy) (not_lt.mp hl)]
            exact ih _ _ _

theorem c4_timeout_amended_witness :
    waitRun 0 0 1 (-1) 0 [⟨700, Obs.size 3, 700⟩] = some false
    ∧ waitRun 0 0 1 (-1) 0 ([] ++ [⟨650, Obs.size 3, 650⟩]) ≠ none :=
  ⟨c4_timeout_amended.1 0 0 1 (-1) 0 ⟨700, Obs.size 3, 700⟩ []
      (by decide) (by decide) (by decide),
   c4_timeout_amended.2 0 0 1 (-1) 0 [] ⟨650, Obs.size 3, 650⟩
      (by decide) (by decide) (by decide)⟩

/-- C5: ten consecutive unchanged readable polls yield the stable
verdict.  From any loop state whose last observed size is `s` and whose
streak is `cnt`, a trace whose next `STABILITY_THRESHOLD - cnt`
iterations pass the age gate, read size `s` again and stay within
`MAX_WAIT_TIME` through the final check makes the detector return
`some true`. -/
theorem c5_stable_verdict (fct start : ℤ) (w : ℚ) (s : ℕ) (cnt : ℕ)
    (tr rest : List Iter) (hcnt : cnt ≤ STABILITY_THRESHOLD)
    (hlen : tr.length = STABILITY_THRESHOLD - cnt)
    (hgood : ∀ it ∈ tr, MIN_FILE_AGE ≤ it.t1 - fct ∧ it.obs = Obs.size s
      ∧ it.t2 - start ≤ MAX_WAIT_TIME) :
    waitRun fct start w (s : ℤ) cnt (tr ++ rest) = some true :=
  waitRun_stable_of_good fct start s tr w cnt hcnt hlen hgood rest

theorem c5_stable_verdict_witness :
    waitRun 0 0 1 ((3 : ℕ) : ℤ) 0
      ([⟨5, Obs.size 3, 5⟩, ⟨6, Obs.size 3, 6⟩, ⟨7, Obs.size 3, 7⟩,
        ⟨8, Obs.size 3, 8⟩, ⟨9, Obs.size 3, 9⟩, ⟨10, Obs.size 3, 10⟩,
        ⟨11, Obs.size 3, 11⟩, ⟨12, Obs.size 3, 12⟩, ⟨13, Obs.size 3, 13⟩,
        ⟨14, Obs.size 3, 14⟩] ++ []) = some true :=
  c5_stable_verdict 0 0 1 3 0
    [⟨5, Obs.size 3, 5⟩, ⟨6, Obs.size 3, 6⟩, ⟨7, Obs.size 3, 7⟩,
     ⟨8, Obs.size 3, 8⟩, ⟨9, Obs.size 3, 9⟩, ⟨10, Obs.size 3, 10⟩,
     ⟨11, Obs.size 3, 11⟩, ⟨12, Obs.size 3, 12⟩, ⟨13, Obs.size 3, 13⟩,
     ⟨14, Obs.size 3, 14⟩] [] (by decide) (by decide) (by decide)

/-- C6: a file younger than `MIN_FILE_AGE` is never reported stable:
a trace all of whose polls happen while the file is younger than
`MIN_FILE_AGE` produces no verdict at all, and each such poll merely
resets the streak to 0, keeping `wait_interval` and `last_size` and
reading no size. -/
theorem c6_young_never_stable (fct start : ℤ) (w : ℚ) (last : ℤ) (cnt : ℕ)
    (tr : List Iter) (hcnt : cnt < STABILITY_THRESHOLD)
    (hyoung : ∀ it ∈ tr, it.t1 - fct < MIN_FILE_AGE) :
    waitRun fct start w last cnt tr = none
    ∧ ∀ (it : Iter) (rest : List Iter), it.t1 - fct < MIN_FILE_AGE →
        waitRun fct start w last cnt (it :: rest) =
          waitRun fct start w last 0 rest :=
  ⟨waitRun_all_young_none fct start w last tr cnt hcnt hyoung,
   fun it rest hy => waitRun_young fct start w last cnt it rest hcnt hy⟩

theorem c6_young_never_stable_witness :
    waitRun 0 0 1 (-1) 0 [⟨3, Obs.size 7, 3⟩, ⟨4, Obs.size 7, 4⟩] = none
    ∧ waitRun 0 0 1 (-1) 0 [⟨3, Obs.size 7, 3⟩] = waitRun 0 0 1 (-1) 0 [] :=
  ⟨(c6_young_never_stable 0 0 1 (-1) 0 [⟨3, Obs.size 7, 3⟩, ⟨4, Obs.size 7, 4⟩]
      (by decide) (by decide)).1,
   (c6_young_never_stable 0 0 1 (-1) 0 [⟨3, Obs.size 7, 3⟩, ⟨4, Obs.size 7, 4⟩]
      (by decide) (by decide)).2 ⟨3, Obs.size 7, 3⟩ [] (by decide)⟩

/-- C7: on an unchanged readable poll the streak is incremented and the
interval grows to `min (previous * 1.5, STABILITY_THRESHOLD)` seconds;
on a poll reading a different size, the streak resets to 0 and the
interval to `INITIAL_CHECK_INTERVAL`. -/
theorem c7_streak_and_backoff (fct start : ℤ) (w : ℚ) (last : ℤ) (cnt : ℕ)
    (n : ℕ) (it : Iter) (rest : List Iter) (hcnt : cnt < STABILITY_THRESHOLD)
    (hage : MIN_FILE_AGE ≤ it.t1 - fct) (hobs : it.obs = Obs.size n)
    (hin : it.t2 - start ≤ MAX_WAIT_TIME) :
    waitRun fct start w last cnt (it :: rest) =
      if (n : ℤ) = last then
        waitRun fct start (min (w * (3 / 2)) (STABILITY_THRESHOLD : ℚ)) (n : ℤ)
          (cnt + 1) rest
      else
        waitRun fct start INITIAL_CHECK_INTERVAL (n : ℤ) 0 rest := by
  rw [waitRun_step fct start w last cnt it rest hcnt hage hin, hobs]
  by_cases heq : (n : ℤ) = last
  · rw [if_pos heq]
    simp [stepUpdate, heq]
  · rw [if_neg heq]
    simp [stepUpdate, heq]

theorem c7_streak_and_backoff_witness :
    waitRun 0 0 2 3 4 [⟨10, Obs.size 3, 10⟩] =
      if ((3 : ℕ) : ℤ) = 3 then
        waitRun 0 0 (min (2 * (3 / 2)) (STABILITY_THRESHOLD : ℚ)) ((3 : ℕ) : ℤ) 5 []
      else
        waitRun 0 0 INITIAL_CHECK_INTERVAL ((3 : ℕ) : ℤ) 0 [] :=
  c7_streak_and_backoff 0 0 2 3 4 3 ⟨10, Obs.size 3, 10⟩ []
    (by decide) (by decide) rfl (by decide)

/-- C8: the dispatch outcome is exactly one of success (exit code 0),
non-zero exit with the captured stderr, timeout (distinct constructor),
or unexpected failure for any other exception, and the registry entry is
released whatever the subprocess does. -/
theorem c8_dispatch_classification :
    (∀ out errS, classifyDispatch (SubprocessResult.completed 0 out errS)
      = DispatchOutcome.success out)
    ∧ (∀ (k : ℕ) (out errS : String), k ≠ 0 →
        classifyDispatch (SubprocessResult.completed k out errS)
          = DispatchOutcome.nonZeroExit k errS)
    ∧ classifyDispatch SubprocessResult.timedOut = DispatchOutcome.timedOut
    ∧ (∀ m, classifyDispatch (SubprocessResult.raisedOther m)
        = DispatchOutcome.unexpectedFailure m)
    ∧ (∀ (reg : Finset String) (p : String) (r : SubprocessResult),
        (run_script reg p r).2 = reg.erase p) := by
  refine ⟨fun out errS => rfl, ?_, rfl, fun m => rfl, fun reg p r => rfl⟩
  intro k out errS hk
  cases k with
  | zero => exact absurd rfl hk
  | succ k => rfl

theorem c8_dispatch_classification_witness :
    classifyDispatch (SubprocessResult.completed 1 "" "bad format")
      = DispatchOutcome.nonZeroExit 1 "bad format"
    ∧ (run_script (insert "f.mxf" (∅ : Finset String)) "f.mxf"
        (SubprocessResult.completed 1 "" "bad format")).2
      = (insert "f.mxf" (∅ : Finset String)).erase "f.mxf" :=
  ⟨c8_dispatch_classification.2.1 1 "" "bad format" (by decide),
   c8_dispatch_classification.2.2.2.2 (insert "f.mxf" (∅ : Finset String))
     "f.mxf" (SubprocessResult.completed 1 "" "bad format")⟩

/-- C9: the sentinel `last_size = -1` equals no real file size, so the
first successful read never counts as unchanged: a stable verdict
requires at least `STABILITY_THRESHOLD + 1` successful size reads in the
observation sequence. -/
theorem c9_sentinel_requires_eleven_reads (fct start : ℤ) (tr : List Iter)
    (h : wait_for_stable_file fct start tr = some true) :
    STABILITY_THRESHOLD + 1 ≤ tr.countP (readPoll fct) := by
  have hrec := countP_reads_lb fct start tr INITIAL_CHECK_INTERVAL (-1) 0
    (by decide) h
  rw [if_pos (by decide : (-1 : ℤ) < 0)] at hrec
  omega

theorem c9_sentinel_requires_eleven_reads_witness :
    STABILITY_THRESHOLD + 1 ≤
      ([⟨5, Obs.size 3, 5⟩, ⟨6, Obs.size 3, 6⟩, ⟨7, Obs.size 3, 7⟩,
        ⟨8, Obs.size 3, 8⟩, ⟨9, Obs.size 3, 9⟩, ⟨10, Obs.size 3, 10⟩,
        ⟨11, Obs.size 3, 11⟩, ⟨12, Obs.size 3, 12⟩, ⟨13, Obs.size 3, 13⟩,
        ⟨14, Obs.size 3, 14⟩, ⟨15, Obs.size 3, 15⟩] : List Iter).countP
        (readPoll 0) :=
  c9_sentinel_requires_eleven_reads 0 0
    [⟨5, Obs.size 3, 5⟩, ⟨6, Obs.size 3, 6⟩, ⟨7, Obs.size 3, 7⟩,
     ⟨8, Obs.size 3, 8⟩, ⟨9, Obs.size 3, 9⟩, ⟨10, Obs.size 3, 10⟩,
     ⟨11, Obs.size 3, 11⟩, ⟨12, Obs.size 3, 12⟩, ⟨13, Obs.size 3, 13⟩,
     ⟨14, Obs.size 3, 14⟩, ⟨15, Obs.size 3, 15⟩] (by decide)

/-- C10: on an `OSError` while reading the size, the streak resets to 0
but `wait_interval` keeps its current (possibly grown) value and
`last_size` keeps its pre-error value, so a later read equal to the
pre-error size counts as unchanged (streak 0 to 1). -/
theorem c10_error_preserves_interval (fct start : ℤ) (w : ℚ) (last : ℤ)
    (cnt : ℕ) (it : Iter) (rest : List Iter) (n : ℕ)
    (hcnt : cnt < STABILITY_THRESHOLD) (hage : MIN_FILE_AGE ≤ it.t1 - fct)
    (hobs : it.obs = Obs.err) (hin : it.t2 - start ≤ MAX_WAIT_TIME) :
    waitRun fct start w last cnt (it :: rest) = waitRun fct start w last 0 rest
    ∧ ∀ (it2 : Iter) (rest2 : List Iter),
        MIN_FILE_AGE ≤ it2.t1 - fct → it2.obs = Obs.size n → (n : ℤ) = last →
        it2.t2 - start ≤ MAX_WAIT_TIME →
        waitRun fct start w last 0 (it2 :: rest2) =
          waitRun fct start (min (w * (3 / 2)) (STABILITY_THRESHOLD : ℚ))
            (n : ℤ) 1 rest2 := by
  constructor
  · rw [waitRun_step fct start w last cnt it rest hcnt hage hin, hobs]
    simp [stepUpdate]
  · intro it2 rest2 hage2 hobs2 heq hin2
    rw [waitRun_step fct start w last 0 it2 rest2 (by decide) hage2 hin2, hobs2]
    simp [stepUpdate, heq]

theorem c10_error_preserves_interval_witness :
    waitRun 0 0 1 7 4 [⟨10, Obs.err, 10⟩] = waitRun 0 0 1 7 0 []
    ∧ waitRun 0 0 1 7 0 [⟨11, Obs.size 7, 11⟩] =
        waitRun 0 0 (min (1 * (3 / 2)) (STABILITY_THRESHOLD : ℚ)) ((7 : ℕ) : ℤ)
          1 [] :=
  ⟨(c10_error_preserves_interval 0 0 1 7 4 ⟨10, Obs.err, 10⟩ [] 7
      (by decide) (by decide) rfl (by decide)).1,
   (c10_error_preserves_interval 0 0 1 7 4 ⟨10, Obs.err, 10⟩ [] 7
      (by decide) (by decide) rfl (by decide)).2 ⟨11, Obs.size 7, 11⟩ []
      (by decide) rfl (by decide) (by decide)⟩

end StanzaWatchDog
